import Mathlib

/-!
Shallow embedding of `models/audioset_model.py` (class `AudioSet`) and of the
learning-rate range-test subsystem built around it.  Losses, learning rates and
label values are modelled as exact rationals; the real-valued exponential
stepper (whose source module `models/lr_finder.py` is not in the tree) is
modelled over the reals from its specification.
-/

namespace AudioSetModel

/-- Module-level constant `LR_TEST_MAX_LR = 0.1` from `audioset_model.py`. -/
def LR_TEST_MAX_LR : ℚ := 1/10

/-- Module-level constant `LR_TEST_STEPS = 600` from `audioset_model.py`. -/
def LR_TEST_STEPS : ℕ := 600

/-- The model's `self.history = {'lr': [], 'loss': []}` dictionary: two lists of
rationals, one of recorded learning rates and one of recorded (smoothed) losses. -/
structure History where
  lr : List ℚ
  loss : List ℚ
deriving DecidableEq, Repr

/-- Python exceptions that the modelled code paths can raise. -/
inductive PyError
  | unboundLocalError
  | attributeError
  | indexError
deriving DecidableEq, Repr

/-- Outcome of the LR-test branch of `AudioSet.training_step` (lines 51-62):
either the process exits with status 0 after `plot_lr` consumed the history
(the `exited` constructor carries the exact history handed to the plotter),
or `self.history['loss'][-1]` raised `IndexError` on an empty list, or the
step appended one rate and one loss value and control fell through to the
normal return. -/
inductive StepResult
  | exited (code : ℕ) (plotted : History)
  | indexError
  | recorded (h : History)
deriving DecidableEq, Repr

/-- LR-test portion of `AudioSet.training_step`: if the rate history already
holds `LR_TEST_STEPS` entries, plot and exit with status 0; otherwise append
the current learning rate, then append either the smoothed loss
`0.05 * loss + 0.95 * history['loss'][-1]` (when `batch_idx != 0`) or the raw
loss (when `batch_idx == 0`). -/
def trainingStepTestLR (h : History) (batch_idx : ℕ) (lrVal lossVal : ℚ) : StepResult :=
  if h.lr.length = LR_TEST_STEPS then
    .exited 0 h
  else
    let lr' := h.lr ++ [lrVal]
    if batch_idx ≠ 0 then
      match h.loss.getLast? with
      | none => .indexError
      | some prev => .recorded ⟨lr', h.loss ++ [(1/20) * lossVal + (19/20) * prev]⟩
    else
      .recorded ⟨lr', h.loss ++ [lossVal]⟩

/-- Hyperparameters consumed by `AudioSet` (produced by `add_model_specific_args`);
`optimizer` and `scheduler` are free-form strings compared against literals, as
in the source. -/
structure HParams where
  learning_rate : ℚ
  min_lr : ℚ
  decay_factor : ℚ
  optimizer : String
  scheduler : String
  test_lr : Bool
deriving DecidableEq, Repr

/-- Optimizer objects constructed in `configure_optimizers`. -/
inductive Optimizer
  | adam (lr : ℚ) (weight_decay : ℚ)
  | sgd (lr : ℚ) (momentum : ℚ) (weight_decay : ℚ)
deriving DecidableEq, Repr

/-- Scheduler objects constructed in `configure_optimizers`. -/
inductive Scheduler
  | cyclic (base_lr max_lr : ℚ) (step_size_up : ℕ) (cycle_momentum : Bool)
  | exponential (gamma : ℚ)
  | plateau (factor : ℚ) (patience : ℕ) (min_lr : ℚ)
deriving DecidableEq, Repr

/-- Possible return values of `configure_optimizers`: `return optimizer`,
`return [optimizer], [scheduler]`, or the Python `None` that results from
falling off the end of the `if/elif` chain with no matching branch. -/
inductive ConfigResult
  | single (opt : Optimizer)
  | withSched (opt : Optimizer) (sched : Scheduler)
  | pyNone
deriving DecidableEq, Repr

/-- Instance attributes optionally set on `self` by `configure_optimizers`:
`self.lr_test` (recorded as the `(max_lr, total_steps)` pair passed to
`BatchExponentialLR`) and `self.cyclic_scheduler`. -/
structure Attrs where
  lr_test : Option (ℚ × ℕ)
  cyclic_scheduler : Option Scheduler
deriving DecidableEq, Repr

/-- Model of `AudioSet.configure_optimizers` (lines 106-127).  The local
`optimizer` is bound only by the `adam`/`sgd` branches; a later use of it while
unbound raises `UnboundLocalError` (modelled as an error).  When `test_lr` is
set, a `BatchExponentialLR(optimizer, LR_TEST_MAX_LR, LR_TEST_STEPS)` is stored
in `self.lr_test` and the bare optimizer is returned; otherwise the scheduler
string is dispatched, and an unrecognized value falls off the end, returning
Python `None`. -/
def configure_optimizers (hp : HParams) : Except PyError (ConfigResult × Attrs) :=
  let opt? : Option Optimizer :=
    if hp.optimizer = "adam" then some (.adam hp.learning_rate (1/10000))
    else if hp.optimizer = "sgd" then some (.sgd hp.learning_rate (9/10) (5/10000))
    else none
  if hp.test_lr then
    match opt? with
    | none => .error .unboundLocalError
    | some o => .ok (.single o, ⟨some (LR_TEST_MAX_LR, LR_TEST_STEPS), none⟩)
  else if hp.scheduler = "cyclic" then
    match opt? with
    | none => .error .unboundLocalError
    | some o =>
        .ok (.single o,
          ⟨none, some (.cyclic hp.min_lr hp.learning_rate 480 (hp.optimizer = "sgd"))⟩)
  else if hp.scheduler = "exp" then
    match opt? with
    | none => .error .unboundLocalError
    | some o => .ok (.withSched o (.exponential hp.decay_factor), ⟨none, none⟩)
  else if hp.scheduler = "plateau" then
    match opt? with
    | none => .error .unboundLocalError
    | some o => .ok (.withSched o (.plateau hp.decay_factor 3 (1/1000000)), ⟨none, none⟩)
  else
    .ok (.pyNone, ⟨none, none⟩)

/-- Model of `AudioSet.on_batch_end` (lines 70-74).  `count` is the number of
`self.lr_test.step()` calls made so far (the Stepper's internal counter); the
result is the updated count, or the `AttributeError` raised when a branch
touches an attribute that `configure_optimizers` never set. -/
def on_batch_end (hp : HParams) (a : Attrs) (count : ℕ) : Except PyError ℕ :=
  if hp.test_lr then
    match a.lr_test with
    | none => .error .attributeError
    | some _ =>
      if hp.scheduler = "cyclic" then
        match a.cyclic_scheduler with
        | none => .error .attributeError
        | some _ => .ok (count + 1)
      else .ok (count + 1)
  else
    if hp.scheduler = "cyclic" then
      match a.cyclic_scheduler with
      | none => .error .attributeError
      | some _ => .ok count
    else .ok count

/-- Trainer-supplied inputs of one LR-test iteration: the per-epoch batch index
passed to `training_step`, the rate returned by `self.lr_test.get_lr()[0]`, and
the loss produced by the forward pass. -/
structure BatchInput where
  batch_idx : ℕ
  lrVal : ℚ
  lossVal : ℚ
deriving DecidableEq, Repr

/-- Mutable per-run state during the LR test: the history dictionary plus the
Stepper's internal step counter (number of `self.lr_test.step()` calls). -/
structure RunState where
  hist : History
  stepCount : ℕ
deriving DecidableEq, Repr

/-- Status of an LR-test run: still iterating, exited via `sys.exit(0)` with
the plotted history and the final step count, or stopped by a raised
exception. -/
inductive RunStatus
  | running (s : RunState)
  | exited (code : ℕ) (plotted : History) (stepCount : ℕ)
  | errored (e : PyError)
deriving DecidableEq, Repr

/-- One trainer iteration while the LR-test flag is set: `training_step`
(recording branch) followed by `on_batch_end`.  A status that already exited
or errored is left unchanged. -/
def lrTestIter (hp : HParams) (a : Attrs) (st : RunStatus) (b : BatchInput) : RunStatus :=
  match st with
  | .running s =>
    match trainingStepTestLR s.hist b.batch_idx b.lrVal b.lossVal with
    | .exited c ph => .exited c ph s.stepCount
    | .indexError => .errored .indexError
    | .recorded h' =>
      match on_batch_end hp a s.stepCount with
      | .ok c => .running ⟨h', c⟩
      | .error e => .errored e
  | st => st

/-- Whole LR-test run over a list of trainer iterations, starting from the
empty history built in `AudioSet.__init__` and a fresh Stepper counter. -/
def lrTestRun (hp : HParams) (a : Attrs) (inputs : List BatchInput) : RunStatus :=
  inputs.foldl (lrTestIter hp a) (.running ⟨⟨[], []⟩, 0⟩)

/-- History visible at a run status (the live history while running, the
plotted history after exit, nothing after an exception). -/
def statusHist : RunStatus → Option History
  | .running s => some s.hist
  | .exited _ ph _ => some ph
  | .errored _ => none

/-- Stepper call count visible at a run status. -/
def statusCount : RunStatus → Option ℕ
  | .running s => some s.stepCount
  | .exited _ _ c => some c
  | .errored _ => none

/-- Index of the first maximum of a list of rationals, 0 on the empty list:
model of `torch.argmax(y_hat, dim=-1)` for one example's logit row. -/
def argmaxIdx : List ℚ → ℕ
  | [] => 0
  | [_] => 0
  | x :: y :: t =>
    let j := argmaxIdx (y :: t)
    if x < (y :: t).getD j 0 then j + 1 else 0

/-- Unfolding equation for `argmaxIdx` on a list with at least two elements. -/
theorem argmaxIdx_cons_cons (x y : ℚ) (t : List ℚ) :
    argmaxIdx (x :: y :: t) =
      if x < (y :: t).getD (argmaxIdx (y :: t)) 0 then argmaxIdx (y :: t) + 1 else 0 := by
  simp only [argmaxIdx]

/-- The arg-max index of a non-empty list is in range. -/
theorem argmaxIdx_lt_length : ∀ (l : List ℚ), l ≠ [] → argmaxIdx l < l.length
  | [], h => absurd rfl h
  | [_], _ => by simp [argmaxIdx]
  | x :: y :: t, _ => by
    have ih := argmaxIdx_lt_length (y :: t) (by simp)
    rw [argmaxIdx_cons_cons]
    by_cases hxy : x < (y :: t).getD (argmaxIdx (y :: t)) 0
    · rw [if_pos hxy]
      simpa using Nat.succ_lt_succ ih
    · rw [if_neg hxy]
      simp

/-- Every entry of a list is bounded by the entry at its arg-max index. -/
theorem argmaxIdx_spec : ∀ (l : List ℚ) (i : ℕ), i < l.length →
    l.getD i 0 ≤ l.getD (argmaxIdx l) 0
  | [], _, hi => by simp at hi
  | [x], i, hi => by
    have hi0 : i = 0 := by simpa using hi
    subst hi0
    simp [argmaxIdx]
  | x :: y :: t, i, hi => by
    rw [argmaxIdx_cons_cons]
    by_cases hxy : x < (y :: t).getD (argmaxIdx (y :: t)) 0
    · rw [if_pos hxy, List.getD_cons_succ]
      cases i with
      | zero => simpa [List.getD_cons_zero] using le_of_lt hxy
      | succ i' =>
        rw [List.getD_cons_succ]
        exact argmaxIdx_spec (y :: t) i' (by simpa using hi)
    · rw [if_neg hxy, List.getD_cons_zero]
      cases i with
      | zero => simp [List.getD_cons_zero]
      | succ i' =>
        rw [List.getD_cons_succ]
        exact (argmaxIdx_spec (y :: t) i' (by simpa using hi)).trans (not_lt.mp hxy)

/-- Sum of a 0/1-valued list of rationals equals the number of its ones. -/
theorem sum_eq_countP_one (l : List ℚ) (hl : ∀ v ∈ l, v = 0 ∨ v = 1) :
    l.sum = l.countP fun v => decide (v = 1) := by
  induction l with
  | nil => simp
  | cons x t ih =>
    have hx := hl x (by simp)
    have ht : ∀ v ∈ t, v = 0 ∨ v = 1 := fun v hv => hl v (List.mem_cons_of_mem _ hv)
    rcases hx with h0 | h1
    · subst h0
      rw [List.sum_cons, List.countP_cons, ih ht]
      norm_num
    · subst h1
      rw [List.sum_cons, List.countP_cons, ih ht]
      norm_num
      ring

/-- Predicted class of one example: arg-max over its logits. -/
def predClass (yhat : List ℚ) : ℕ := argmaxIdx yhat

/-- Model of `torch.gather(y, 1, max_class.view(-1, 1))` for one example: the
label vector's entry at the predicted class (0 past the end). -/
def exampleCorrect (yhat y : List ℚ) : ℚ := y.getD (predClass yhat) 0

/-- Per-example correctness values of a batch; each batch element is a pair
`(logits, multi-hot label)`. -/
def batchCorrects (b : List (List ℚ × List ℚ)) : List ℚ :=
  b.map fun p => exampleCorrect p.1 p.2

/-- Batch top-1 accuracy `torch.sum(correct).item() / x.size(0)`. -/
def batchAcc (b : List (List ℚ × List ℚ)) : ℚ :=
  (batchCorrects b).sum / b.length

/-- Set bits of a multi-hot label vector: the class indices whose entry is 1. -/
def setBits (y : List ℚ) : List ℕ :=
  (List.range y.length).filter fun i => decide (y.getD i 0 = 1)

/-- Model of `AudioSet.validation_end` (lines 89-104): each output is the pair
of a batch's validation loss and its per-example correctness list; the result
is `(torch.stack(losses).mean(), torch.sum(cat(corrects)) / len(cat(corrects)))`. -/
def validation_end (outputs : List (ℚ × List ℚ)) : ℚ × ℚ :=
  ((outputs.map Prod.fst).sum / outputs.length,
   ((outputs.map Prod.snd).flatten.sum) / ((outputs.map Prod.snd).flatten.length))

/-- Modelled from the spec: class `BatchExponentialLR` of `models/lr_finder.py`,
which is not present in the source tree.  Constructed from an optimizer's
per-group base rates, a target maximum rate and a step budget `N`, it captures
one constant factor `(max_lr / base_lr) ^ (1 / N)` per group; `step()`
multiplies every group's current rate by its factor and advances an internal
counter; `get_lr()` returns the current rates without mutating them. -/
structure BatchExponentialLR where
  factors : List ℝ
  rates : List ℝ
  stepCount : ℕ

/-- Modelled from the spec: construction of `BatchExponentialLR` capturing the
base rates once and computing the per-group growth factors. -/
noncomputable def BatchExponentialLR.init (baseLrs : List ℝ) (maxLr : ℝ) (n : ℕ) :
    BatchExponentialLR :=
  ⟨baseLrs.map fun b => (maxLr / b) ^ ((n : ℝ)⁻¹), baseLrs, 0⟩

/-- Modelled from the spec: `get_lr()` returns the current per-group rates. -/
def BatchExponentialLR.get_lr (s : BatchExponentialLR) : List ℝ := s.rates

/-- Modelled from the spec: `step()` multiplies every group's rate by its
constant factor and advances the internal counter. -/
def BatchExponentialLR.step (s : BatchExponentialLR) : BatchExponentialLR :=
  ⟨s.factors, List.zipWith (· * ·) s.factors s.rates, s.stepCount + 1⟩

/-- State of the Stepper after `k` calls to `step()` from a fresh construction. -/
noncomputable def stepperAfter (baseLrs : List ℝ) (maxLr : ℝ) (n k : ℕ) :
    BatchExponentialLR :=
  BatchExponentialLR.step^[k] (BatchExponentialLR.init baseLrs maxLr n)

/-- Iterate unfolding for `stepperAfter`. -/
theorem stepperAfter_succ (baseLrs : List ℝ) (m : ℝ) (n k : ℕ) :
    stepperAfter baseLrs m n (k + 1) = (stepperAfter baseLrs m n k).step := by
  simp [stepperAfter, Function.iterate_succ_apply']

/-- Closed form of a one-group Stepper after `k` steps: the rate is the base
rate times the `k`-th power of the growth factor. -/
theorem stepperAfter_single (b m : ℝ) (n : ℕ) :
    ∀ k, (stepperAfter [b] m n k).factors = [(m / b) ^ ((n : ℝ)⁻¹)] ∧
      (stepperAfter [b] m n k).rates = [b * ((m / b) ^ ((n : ℝ)⁻¹)) ^ k] ∧
      (stepperAfter [b] m n k).stepCount = k := by
  intro k
  induction k with
  | zero => simp [stepperAfter, BatchExponentialLR.init]
  | succ k ih =>
    obtain ⟨h1, h2, h3⟩ := ih
    rw [stepperAfter_succ]
    unfold BatchExponentialLR.step
    rw [h1, h2, h3]
    refine ⟨rfl, ?_, rfl⟩
    simp only [List.zipWith]
    rw [pow_succ]
    congr 1
    ring

/-! Helper lemmas about the LR-test run loop. -/

/-- An exited status is absorbing for the run loop. -/
theorem foldl_lrTestIter_exited (hp : HParams) (a : Attrs) (xs : List BatchInput)
    (c : ℕ) (ph : History) (n : ℕ) :
    xs.foldl (lrTestIter hp a) (.exited c ph n) = .exited c ph n := by
  induction xs with
  | nil => rfl
  | cons x t ih => simpa [lrTestIter] using ih

/-- Characterization of an LR-test run from an arbitrary in-variant state: as
long as the exit threshold has not been crossed the run keeps recording, both
history sequences and the Stepper counter growing in lockstep; once the input
count pushes past the budget the run exits with status 0 holding exactly
`LR_TEST_STEPS` recorded pairs. -/
theorem lrTestRun_char (hp : HParams) (a : Attrs)
    (hb : ∀ c, on_batch_end hp a c = .ok (c + 1)) :
    ∀ (inputs : List BatchInput) (s : RunState),
      s.hist.lr.length = s.hist.loss.length →
      s.stepCount = s.hist.lr.length →
      s.hist.lr.length ≤ LR_TEST_STEPS →
      (s.hist.loss = [] → ∀ b, inputs.head? = some b → b.batch_idx = 0) →
      (s.hist.lr.length + inputs.length ≤ LR_TEST_STEPS →
        ∃ s', inputs.foldl (lrTestIter hp a) (.running s) = .running s' ∧
          s'.hist.lr.length = s.hist.lr.length + inputs.length ∧
          s'.hist.loss.length = s.hist.lr.length + inputs.length ∧
          s'.stepCount = s.hist.lr.length + inputs.length) ∧
      (LR_TEST_STEPS < s.hist.lr.length + inputs.length →
        ∃ ph, inputs.foldl (lrTestIter hp a) (.running s) =
            .exited 0 ph LR_TEST_STEPS ∧
          ph.lr.length = LR_TEST_STEPS ∧ ph.loss.length = LR_TEST_STEPS) := by
  intro inputs
  induction inputs with
  | nil =>
    intro s h1 h2 h3 _
    refine ⟨fun _ => ⟨s, rfl, by simp, by simp [h1], by simp [h2]⟩,
      fun hlt => by simp at hlt; omega⟩
  | cons x xs ih =>
    intro s h1 h2 h3 h4
    by_cases hL : s.hist.lr.length = LR_TEST_STEPS
    · have hstep : trainingStepTestLR s.hist x.batch_idx x.lrVal x.lossVal =
          .exited 0 s.hist := by
        unfold trainingStepTestLR
        rw [if_pos hL]
      have hiter : lrTestIter hp a (.running s) x = .exited 0 s.hist s.stepCount := by
        simp [lrTestIter, hstep]
      rw [List.foldl_cons, hiter, foldl_lrTestIter_exited]
      refine ⟨fun hle => absurd hle (by simp; omega), fun _ => ⟨s.hist, ?_, hL, by omega⟩⟩
      rw [h2, hL]
    · have hL' : s.hist.lr.length < LR_TEST_STEPS := lt_of_le_of_ne h3 hL
      have hrec : ∃ h' : History,
          trainingStepTestLR s.hist x.batch_idx x.lrVal x.lossVal = .recorded h' ∧
          h'.lr.length = s.hist.lr.length + 1 ∧
          h'.loss.length = s.hist.lr.length + 1 ∧ h'.loss ≠ [] := by
        by_cases hidx : x.batch_idx = 0
        · refine ⟨⟨s.hist.lr ++ [x.lrVal], s.hist.loss ++ [x.lossVal]⟩, ?_, by simp,
            by simp [h1.symm], by simp⟩
          unfold trainingStepTestLR
          rw [if_neg hL]
          simp [hidx]
        · have hne : s.hist.loss ≠ [] := by
            intro hnil
            exact hidx (h4 hnil x rfl)
          obtain ⟨prev, hprev⟩ := Option.isSome_iff_exists.mp
            (List.getLast?_isSome.mpr hne)
          refine ⟨⟨s.hist.lr ++ [x.lrVal],
            s.hist.loss ++ [(1/20) * x.lossVal + (19/20) * prev]⟩, ?_, by simp,
            by simp [h1.symm], by simp⟩
          unfold trainingStepTestLR
          rw [if_neg hL]
          simp only [hidx, ne_eq, not_false_iff, if_pos, hprev, if_true]
      obtain ⟨h', hstep, hlr, hloss, hne'⟩ := hrec
      have hiter : lrTestIter hp a (.running s) x = .running ⟨h', s.stepCount + 1⟩ := by
        simp [lrTestIter, hstep, hb]
      rw [List.foldl_cons, hiter]
      have ihs := ih ⟨h', s.stepCount + 1⟩ (by simp [hlr, hloss])
        (by simp [hlr, h2]) (by simp [hlr]; omega) (by simp [hne'])
      obtain ⟨ihrun, ihexit⟩ := ihs
      constructor
      · intro hle
        have hle' : h'.lr.length + xs.length ≤ LR_TEST_STEPS := by
          simp only [hlr]
          simp at hle
          omega
        obtain ⟨s', hfold, e1, e2, e3⟩ := ihrun hle'
        exact ⟨s', hfold, by simp [e1, hlr]; omega, by simp [e2, hlr]; omega,
          by simp [e3, hlr]; omega⟩
      · intro hlt
        have hlt' : LR_TEST_STEPS < h'.lr.length + xs.length := by
          simp only [hlr]
          simp at hlt
          omega
        exact ihexit hlt'

/-- When the LR-test flag is set and configuration succeeds, the attributes
hold the Stepper constructed with `(LR_TEST_MAX_LR, LR_TEST_STEPS)` and no
cyclic scheduler. -/
theorem configure_optimizers_test_lr (hp : HParams) (hT : hp.test_lr = true)
    (r : ConfigResult) (a : Attrs) (hc : configure_optimizers hp = .ok (r, a)) :
    a = ⟨some (LR_TEST_MAX_LR, LR_TEST_STEPS), none⟩ := by
  simp only [configure_optimizers, hT, if_true] at hc
  split at hc
  · exact absurd hc (by simp)
  · simp only [Except.ok.injEq, Prod.mk.injEq] at hc
    exact hc.2.symm

/-! Claim theorems. -/

/-- C1: in LR-test mode, a training step with batch index `i > 0` appends the
smoothed loss `0.05 * loss + 0.95 * (last previously appended smoothed loss)`,
a step with batch index 0 appends the raw loss, and on the example loss
sequence `[1, 1/2, 1/2]` (batch indices 0, 1, 2) the recorded smoothed sequence
is exactly `[1, 39/40, 761/800] = [1.0, 0.975, 0.95125]`. -/
theorem claim_C1_smoothing (h : History) (bidx : ℕ) (lrVal lossVal prev : ℚ)
    (hlen : h.lr.length ≠ LR_TEST_STEPS) (hprev : h.loss.getLast? = some prev)
    (hbi : bidx ≠ 0) :
    trainingStepTestLR h bidx lrVal lossVal =
      .recorded ⟨h.lr ++ [lrVal], h.loss ++ [(1/20) * lossVal + (19/20) * prev]⟩ ∧
    (∀ h0 : History, h0.lr.length ≠ LR_TEST_STEPS →
      trainingStepTestLR h0 0 lrVal lossVal =
        .recorded ⟨h0.lr ++ [lrVal], h0.loss ++ [lossVal]⟩) ∧
    trainingStepTestLR ⟨[], []⟩ 0 0 1 = .recorded ⟨[0], [1]⟩ ∧
    trainingStepTestLR ⟨[0], [1]⟩ 1 0 (1/2) = .recorded ⟨[0, 0], [1, 39/40]⟩ ∧
    trainingStepTestLR ⟨[0, 0], [1, 39/40]⟩ 2 0 (1/2) =
      .recorded ⟨[0, 0, 0], [1, 39/40, 761/800]⟩ := by
  refine ⟨?_, ?_, by norm_num [trainingStepTestLR, LR_TEST_STEPS],
    by norm_num [trainingStepTestLR, LR_TEST_STEPS],
    by norm_num [trainingStepTestLR, LR_TEST_STEPS]⟩
  · simp only [trainingStepTestLR, if_neg hlen, if_pos hbi, hprev]
  · intro h0 hlen0
    simp [trainingStepTestLR, if_neg hlen0]

/-- Witness for C1 at a concrete history and step. -/
theorem claim_C1_smoothing_witness :
    trainingStepTestLR ⟨[0], [1]⟩ 1 0 (1/2) =
      .recorded ⟨[0, 0], [1, (1/20) * (1/2) + (19/20) * 1]⟩ :=
  (claim_C1_smoothing ⟨[0], [1]⟩ 1 0 (1/2) 1 (by decide) (by decide) (by decide)).1

/-- C2: in LR-test mode, at the first training step at which the rate history
holds exactly `LR_TEST_STEPS = 600` entries, the plotter is handed the full
recorded history and the process exits with status 0, with nothing appended;
consequently any run whose input count exceeds the budget ends in an exit with
status 0 carrying exactly 600 recorded rate/loss pairs. -/
theorem claim_C2_budget_exit (h : History) (bidx : ℕ) (lrVal lossVal : ℚ)
    (hlen : h.lr.length = LR_TEST_STEPS) :
    trainingStepTestLR h bidx lrVal lossVal = .exited 0 h ∧
    (∀ (hp : HParams) (a : Attrs), (∀ c, on_batch_end hp a c = .ok (c + 1)) →
      ∀ inputs : List BatchInput,
        (∀ b, inputs.head? = some b → b.batch_idx = 0) →
        LR_TEST_STEPS < inputs.length →
        ∃ ph, lrTestRun hp a inputs = .exited 0 ph LR_TEST_STEPS ∧
          ph.lr.length = LR_TEST_STEPS ∧ ph.loss.length = LR_TEST_STEPS) := by
  constructor
  · simp only [trainingStepTestLR, if_pos hlen]
  · intro hp a hb inputs hfirst hlong
    have hchar := lrTestRun_char hp a hb inputs ⟨⟨[], []⟩, 0⟩ rfl rfl (by simp)
      (fun _ => hfirst)
    exact hchar.2 (by simpa using hlong)

/-- Witness for C2 at a history of 600 recorded pairs. -/
theorem claim_C2_budget_exit_witness :
    trainingStepTestLR ⟨List.replicate LR_TEST_STEPS 0, List.replicate LR_TEST_STEPS 0⟩
        0 0 0 =
      .exited 0 ⟨List.replicate LR_TEST_STEPS 0, List.replicate LR_TEST_STEPS 0⟩ :=
  (claim_C2_budget_exit ⟨List.replicate LR_TEST_STEPS 0, List.replicate LR_TEST_STEPS 0⟩
    0 0 0 (by simp)).1

/-- C3 (code evaluation): with optimizer `adam`, scheduler `unknown` and the
LR-test flag off, `configure_optimizers` raises nothing and silently returns
Python `None` — it does not fail fast with a configuration error. -/
theorem claim_C3_silent_none :
    configure_optimizers ⟨3/10, 1/1000, 1/2, "adam", "unknown", false⟩ =
      .ok (.pyNone, ⟨none, none⟩) := by
  rfl

/-- C9: the raw-loss branch of the recorder is selected by the per-epoch batch
index being 0, not by the history being empty: with a non-empty loss history
and batch index 0 (budget not yet reached), the raw loss is appended, and it
differs from the smoothed continuation in general (concrete instance shown). -/
theorem claim_C9_epoch_restart (h : History) (lrVal lossVal : ℚ)
    (hne : h.loss ≠ []) (hlen : h.lr.length ≠ LR_TEST_STEPS) :
    trainingStepTestLR h 0 lrVal lossVal =
      .recorded ⟨h.lr ++ [lrVal], h.loss ++ [lossVal]⟩ ∧
    trainingStepTestLR ⟨[0], [1]⟩ 0 0 (1/2) = .recorded ⟨[0, 0], [1, 1/2]⟩ ∧
    ((1/2 : ℚ) ≠ (1/20) * (1/2) + (19/20) * 1) := by
  refine ⟨?_, by norm_num [trainingStepTestLR, LR_TEST_STEPS], by norm_num⟩
  simp [trainingStepTestLR, if_neg hlen]

/-- Witness for C9 at a one-entry history. -/
theorem claim_C9_epoch_restart_witness :
    trainingStepTestLR ⟨[0], [1]⟩ 0 0 (1/2) = .recorded ⟨[0, 0], [1, 1/2]⟩ :=
  (claim_C9_epoch_restart ⟨[0], [1]⟩ 0 (1/2) (by decide) (by decide)).1

/-- C10: when the LR-test flag is set together with scheduler `cyclic`,
configuration succeeds without ever constructing the cyclic scheduler, yet
`on_batch_end` still takes the cyclic branch and touches the absent
`cyclic_scheduler` attribute, so every batch end raises `AttributeError`. -/
theorem claim_C10_cyclic_test_conflict (hp : HParams)
    (ho : hp.optimizer = "adam" ∨ hp.optimizer = "sgd")
    (hT : hp.test_lr = true) (hS : hp.scheduler = "cyclic") :
    ∃ r a, configure_optimizers hp = .ok (r, a) ∧ a.cyclic_scheduler = none ∧
      ∀ c, on_batch_end hp a c = .error .attributeError := by
  have hattrs : ∀ c, on_batch_end hp ⟨some (LR_TEST_MAX_LR, LR_TEST_STEPS), none⟩ c =
      .error .attributeError := by
    intro c
    simp [on_batch_end, hT, hS]
  rcases ho with hA | hG
  · exact ⟨.single (.adam hp.learning_rate (1/10000)),
      ⟨some (LR_TEST_MAX_LR, LR_TEST_STEPS), none⟩,
      by simp [configure_optimizers, hT, hA], rfl, hattrs⟩
  · exact ⟨.single (.sgd hp.learning_rate (9/10) (5/10000)),
      ⟨some (LR_TEST_MAX_LR, LR_TEST_STEPS), none⟩,
      by simp [configure_optimizers, hT, hG], rfl, hattrs⟩

/-- Witness for C10 at a concrete hyperparameter record. -/
theorem claim_C10_cyclic_test_conflict_witness :
    ∃ r a, configure_optimizers ⟨3/10, 1/1000, 1/2, "adam", "cyclic", true⟩ = .ok (r, a) ∧
      a.cyclic_scheduler = none ∧
      ∀ c, on_batch_end ⟨3/10, 1/1000, 1/2, "adam", "cyclic", true⟩ a c =
        .error .attributeError :=
  claim_C10_cyclic_test_conflict ⟨3/10, 1/1000, 1/2, "adam", "cyclic", true⟩
    (Or.inl rfl) rfl rfl

/-- C4: for a non-empty list of validation outputs with 0/1 correctness
values, `validation_end` returns the unweighted mean of the per-batch losses
and an accuracy equal to the number of correct examples over the total example
count of the concatenation; on batches of sizes 3 and 1 with correctness
`[1,0,1]` and `[1]` the accuracy is `3/4`, which differs from the mean of the
per-batch accuracies `2/3` and `1/1`. -/
theorem claim_C4_validation (outputs : List (ℚ × List ℚ)) (hne : outputs ≠ [])
    (hb : ∀ p ∈ outputs, ∀ v ∈ p.2, v = 0 ∨ v = 1) :
    (validation_end outputs).1 = (outputs.map Prod.fst).sum / outputs.length ∧
    (validation_end outputs).2 =
      (((outputs.map Prod.snd).flatten.countP fun v => decide (v = 1) : ℕ) : ℚ) /
        (((outputs.map fun p => p.2.length).sum : ℕ) : ℚ) ∧
    (validation_end [(0, [1, 0, 1]), (0, [1])]).2 = 3/4 ∧
    ((3 : ℚ)/4 ≠ ((2/3 : ℚ) + 1/1) / 2) := by
  refine ⟨rfl, ?_, by norm_num [validation_end], by norm_num⟩
  have hvals : ∀ v ∈ (outputs.map Prod.snd).flatten, v = 0 ∨ v = 1 := by
    intro v hv
    rw [List.mem_flatten] at hv
    obtain ⟨l, hl, hvl⟩ := hv
    rw [List.mem_map] at hl
    obtain ⟨p, hpmem, hpl⟩ := hl
    exact hb p hpmem v (hpl ▸ hvl)
  have hlen2 : (outputs.map Prod.snd).flatten.length =
      (outputs.map fun p => p.2.length).sum := by
    rw [List.length_flatten, List.map_map]
    rfl
  show ((outputs.map Prod.snd).flatten.sum) /
      (((outputs.map Prod.snd).flatten.length : ℕ) : ℚ) = _
  rw [sum_eq_countP_one _ hvals, hlen2]

/-- Witness for C4 at the two concrete batches of the claim. -/
theorem claim_C4_validation_witness :
    (validation_end [((0 : ℚ), [(1 : ℚ), 0, 1]), (0, [1])]).2 = 3/4 :=
  (claim_C4_validation [(0, [1, 0, 1]), (0, [1])] (by simp) (by decide)).2.2.1

/-- C5: in LR-test mode (with a constructed Stepper and a non-cyclic scheduler
string), after any well-formed run the observed rate and loss histories have
equal length, that length equals the number of steps taken capped at the
budget, and it never exceeds `LR_TEST_STEPS = 600`. -/
theorem claim_C5_history_lengths (hp : HParams) (a : Attrs)
    (hT : hp.test_lr = true) (hS : ¬hp.scheduler = "cyclic")
    (p : ℚ × ℕ) (hA : a.lr_test = some p)
    (inputs : List BatchInput)
    (hfirst : ∀ b, inputs.head? = some b → b.batch_idx = 0) :
    ∃ hh, statusHist (lrTestRun hp a inputs) = some hh ∧
      hh.lr.length = hh.loss.length ∧
      hh.lr.length = min inputs.length LR_TEST_STEPS ∧
      hh.lr.length ≤ LR_TEST_STEPS := by
  have hb : ∀ c, on_batch_end hp a c = .ok (c + 1) := by
    intro c
    simp [on_batch_end, hT, hA, hS]
  have hchar := lrTestRun_char hp a hb inputs ⟨⟨[], []⟩, 0⟩ rfl rfl (by simp)
    (fun _ => hfirst)
  by_cases hle : inputs.length ≤ LR_TEST_STEPS
  · obtain ⟨s', hfold, e1, e2, _⟩ := hchar.1 (by simpa using hle)
    simp only [List.length_nil, Nat.zero_add] at e1 e2
    refine ⟨s'.hist, ?_, by omega, by omega, by omega⟩
    unfold lrTestRun
    rw [hfold]
    rfl
  · obtain ⟨ph, hfold, e1, e2⟩ := hchar.2 (by simp only [List.length_nil]; omega)
    refine ⟨ph, ?_, by omega, by omega, by omega⟩
    unfold lrTestRun
    rw [hfold]
    rfl

/-- Witness for C5 at a one-step run. -/
theorem claim_C5_history_lengths_witness :
    ∃ hh, statusHist (lrTestRun ⟨3/10, 1/1000, 1/2, "adam", "plateau", true⟩
        ⟨some (1/10, 600), none⟩ [⟨0, 0, 1⟩]) = some hh ∧
      hh.lr.length = hh.loss.length ∧
      hh.lr.length = min [(⟨0, 0, 1⟩ : BatchInput)].length LR_TEST_STEPS ∧
      hh.lr.length ≤ LR_TEST_STEPS :=
  claim_C5_history_lengths ⟨3/10, 1/1000, 1/2, "adam", "plateau", true⟩
    ⟨some (1/10, 600), none⟩ rfl (by decide) (1/10, 600) rfl [⟨0, 0, 1⟩]
    (fun b hb => by obtain rfl := Option.some.inj hb; rfl)

/-- C6: in LR-test mode (non-cyclic scheduler string, Stepper constructed),
every batch-end event performs exactly one `step()` call on the Stepper, and
over a whole run the Stepper's internal counter equals the number of steps
taken capped at the budget, hence never exceeds `LR_TEST_STEPS = 600`. -/
theorem claim_C6_stepper_budget (hp : HParams) (a : Attrs)
    (hT : hp.test_lr = true) (hS : ¬hp.scheduler = "cyclic")
    (p : ℚ × ℕ) (hA : a.lr_test = some p)
    (inputs : List BatchInput)
    (hfirst : ∀ b, inputs.head? = some b → b.batch_idx = 0) :
    (∀ c, on_batch_end hp a c = .ok (c + 1)) ∧
    ∃ c, statusCount (lrTestRun hp a inputs) = some c ∧
      c = min inputs.length LR_TEST_STEPS ∧ c ≤ LR_TEST_STEPS := by
  have hb : ∀ c, on_batch_end hp a c = .ok (c + 1) := by
    intro c
    simp [on_batch_end, hT, hA, hS]
  refine ⟨hb, ?_⟩
  have hchar := lrTestRun_char hp a hb inputs ⟨⟨[], []⟩, 0⟩ rfl rfl (by simp)
    (fun _ => hfirst)
  by_cases hle : inputs.length ≤ LR_TEST_STEPS
  · obtain ⟨s', hfold, _, _, e3⟩ := hchar.1 (by simpa using hle)
    simp only [List.length_nil, Nat.zero_add] at e3
    refine ⟨s'.stepCount, ?_, by omega, by omega⟩
    unfold lrTestRun
    rw [hfold]
    rfl
  · obtain ⟨ph, hfold, _, _⟩ := hchar.2 (by simp only [List.length_nil]; omega)
    refine ⟨LR_TEST_STEPS, ?_, by omega, le_refl _⟩
    unfold lrTestRun
    rw [hfold]
    rfl

/-- Witness for C6 at a one-step run. -/
theorem claim_C6_stepper_budget_witness :
    (∀ c, on_batch_end ⟨3/10, 1/1000, 1/2, "adam", "plateau", true⟩
        ⟨some (1/10, 600), none⟩ c = .ok (c + 1)) ∧
    ∃ c, statusCount (lrTestRun ⟨3/10, 1/1000, 1/2, "adam", "plateau", true⟩
        ⟨some (1/10, 600), none⟩ [⟨0, 0, 1⟩]) = some c ∧
      c = min [(⟨0, 0, 1⟩ : BatchInput)].length LR_TEST_STEPS ∧ c ≤ LR_TEST_STEPS :=
  claim_C6_stepper_budget ⟨3/10, 1/1000, 1/2, "adam", "plateau", true⟩
    ⟨some (1/10, 600), none⟩ rfl (by decide) (1/10, 600) rfl [⟨0, 0, 1⟩]
    (fun b hb => by obtain rfl := Option.some.inj hb; rfl)

/-- C8: for every batch (each element a pair of a non-empty logit row and a
0/1 multi-hot label row of the same width), the predicted class is an arg-max
of the logits, it is in range, an example is correct exactly when the
predicted class is among the set bits of its label, and the batch accuracy is
the number of correct examples over the batch size. -/
theorem claim_C8_metrics (b : List (List ℚ × List ℚ))
    (hne : ∀ p ∈ b, p.1 ≠ [])
    (hlen : ∀ p ∈ b, p.2.length = p.1.length)
    (hb : ∀ p ∈ b, ∀ v ∈ p.2, v = 0 ∨ v = 1) :
    (∀ p ∈ b, ∀ i, i < p.1.length → p.1.getD i 0 ≤ p.1.getD (predClass p.1) 0) ∧
    (∀ p ∈ b, predClass p.1 < p.1.length) ∧
    (∀ p ∈ b, (exampleCorrect p.1 p.2 = 1 ↔ predClass p.1 ∈ setBits p.2)) ∧
    batchAcc b =
      (((batchCorrects b).countP fun v => decide (v = 1) : ℕ) : ℚ) / (b.length : ℚ) := by
  refine ⟨fun p _ i hi => argmaxIdx_spec p.1 i hi,
    fun p hp => argmaxIdx_lt_length p.1 (hne p hp), ?_, ?_⟩
  · intro p hp
    unfold exampleCorrect setBits
    constructor
    · intro h1
      have hjlt : predClass p.1 < p.2.length := by
        by_contra hge
        rw [List.getD_eq_default _ _ (le_of_not_lt hge)] at h1
        norm_num at h1
      rw [List.mem_filter]
      exact ⟨List.mem_range.mpr hjlt, by simpa using h1⟩
    · intro hmem
      rw [List.mem_filter] at hmem
      simpa using hmem.2
  · unfold batchAcc
    rw [sum_eq_countP_one]
    intro v hv
    unfold batchCorrects at hv
    rw [List.mem_map] at hv
    obtain ⟨p, hpmem, hpv⟩ := hv
    subst hpv
    unfold exampleCorrect
    by_cases hr : predClass p.1 < p.2.length
    · rw [List.getD_eq_getElem _ _ hr]
      exact hb p hpmem _ (List.getElem_mem hr)
    · rw [List.getD_eq_default _ _ (le_of_not_lt hr)]
      exact Or.inl rfl

/-- Witness for C8 at a one-example batch. -/
theorem claim_C8_metrics_witness :
    (∀ p ∈ [([(1 : ℚ), 2], [(0 : ℚ), 1])], ∀ i, i < p.1.length →
      p.1.getD i 0 ≤ p.1.getD (predClass p.1) 0) ∧
    (∀ p ∈ [([(1 : ℚ), 2], [(0 : ℚ), 1])], predClass p.1 < p.1.length) ∧
    (∀ p ∈ [([(1 : ℚ), 2], [(0 : ℚ), 1])],
      (exampleCorrect p.1 p.2 = 1 ↔ predClass p.1 ∈ setBits p.2)) ∧
    batchAcc [([(1 : ℚ), 2], [(0 : ℚ), 1])] =
      (((batchCorrects [([(1 : ℚ), 2], [(0 : ℚ), 1])]).countP
        fun v => decide (v = 1) : ℕ) : ℚ) /
        (([([(1 : ℚ), 2], [(0 : ℚ), 1])].length : ℕ) : ℚ) :=
  claim_C8_metrics [([1, 2], [0, 1])] (by decide) (by decide) (by decide)

/-- C7: the Stepper captures the base rate at construction, multiplies the
rate by the constant factor `(m / b) ^ (1 / N)` on each `step()` call, reaches
exactly `m` after `N` calls, counts its steps, and is strictly increasing when
`b < m`; in this program it is constructed with `max_lr = LR_TEST_MAX_LR = 0.1`
and `N = LR_TEST_STEPS = 600` whenever the LR-test flag is set. -/
theorem claim_C7_exponential_stepper (b m : ℝ) (n : ℕ)
    (hb : 0 < b) (hm : 0 < m) (hn : 0 < n) :
    (∀ k, (stepperAfter [b] m n (k + 1)).rates =
        [(stepperAfter [b] m n k).rates.headI * ((m / b) ^ ((n : ℝ)⁻¹))]) ∧
    (stepperAfter [b] m n n).rates = [m] ∧
    (∀ k, (stepperAfter [b] m n k).stepCount = k) ∧
    (b < m → StrictMono fun k => (stepperAfter [b] m n k).rates.headI) ∧
    (∀ (hp : HParams) (r : ConfigResult) (a : Attrs), hp.test_lr = true →
      configure_optimizers hp = .ok (r, a) →
      a.lr_test = some (LR_TEST_MAX_LR, LR_TEST_STEPS) ∧
      LR_TEST_MAX_LR = 1/10 ∧ LR_TEST_STEPS = 600) := by
  have hfb : b ≠ 0 := ne_of_gt hb
  have hdiv : (0 : ℝ) < m / b := div_pos hm hb
  have key := stepperAfter_single b m n
  refine ⟨?_, ?_, fun k => (key k).2.2, ?_, ?_⟩
  · intro k
    rw [(key (k + 1)).2.1, (key k).2.1]
    simp only [List.headI]
    rw [pow_succ, mul_assoc]
  · rw [(key n).2.1]
    rw [Real.rpow_inv_natCast_pow (le_of_lt hdiv) hn.ne']
    rw [mul_comm, div_mul_cancel₀ m hfb]
  · intro hbm
    have hf1 : 1 < (m / b) ^ ((n : ℝ)⁻¹) := by
      rw [Real.one_lt_rpow_iff_of_pos hdiv]
      left
      refine ⟨(one_lt_div hb).mpr hbm, ?_⟩
      have hn' : (0 : ℝ) < n := by exact_mod_cast hn
      exact inv_pos.mpr hn'
    apply strictMono_nat_of_lt_succ
    intro k
    rw [(key (k + 1)).2.1, (key k).2.1]
    simp only [List.headI]
    have hf0 : (0 : ℝ) < (m / b) ^ ((n : ℝ)⁻¹) := lt_trans one_pos hf1
    have hpos : 0 < b * ((m / b) ^ ((n : ℝ)⁻¹)) ^ k := by positivity
    calc b * ((m / b) ^ ((n : ℝ)⁻¹)) ^ k
        < b * ((m / b) ^ ((n : ℝ)⁻¹)) ^ k * ((m / b) ^ ((n : ℝ)⁻¹)) :=
          (lt_mul_iff_one_lt_right hpos).mpr hf1
      _ = b * ((m / b) ^ ((n : ℝ)⁻¹)) ^ (k + 1) := by rw [pow_succ, mul_assoc]
  · intro hp r a hT hc
    have ha := configure_optimizers_test_lr hp hT r a hc
    subst ha
    exact ⟨rfl, rfl, rfl⟩

/-- Witness for C7 at base rate `1/1000`, target `1/10` and budget 600. -/
theorem claim_C7_exponential_stepper_witness :
    (stepperAfter [(1 : ℝ)/1000] (1/10) 600 600).rates = [(1 : ℝ)/10] :=
  (claim_C7_exponential_stepper (1/1000) (1/10) 600 (by norm_num) (by norm_num)
    (by norm_num)).2.1

end AudioSetModel
